import Mathlib

/-!
Shallow embedding of the DICOM streaming parser (parse.go) together with
models of the collaborating packages (dicomio reader, element decoder,
tag dictionary, charset registry, transfer syntax table) that are
described by the specification but whose sources are outside of the
surveyed file set.
-/

set_option maxRecDepth 10000

/-- Byte order of multi-byte numeric reads, per the transfer syntax. -/
inductive ByteOrder where
  | littleEndian
  | bigEndian
deriving DecidableEq, Repr

/-- Modelled from the spec: a character set decoder installed on the reader.
The registry resolves specific-character-set names; the decoders themselves
are external black boxes, so the model carries only the resolved names. -/
structure CodingSystem where
  names : List String
deriving DecidableEq, Repr

/-- Error taxonomy of the parser and of the modelled reader. The first two
constructors correspond to ErrorMagicWord and ErrorMetaElementGroupLength
declared in parse.go; outOfFuel is an artifact of the bounded-recursion
embedding of the source loops and never occurs on runs the source performs
(every loop iteration consumes at least one input byte). -/
inductive DicomError where
  | magicWord
  | metaElementGroupLength
  | truncated
  | unexpectedEOF
  | malformedValue
  | malformedSequence
  | unresolvableCharset
  | unrecognizedTransferUID
  | limitExceeded
  | elementNotFound
  | outOfFuel
deriving DecidableEq, Repr

/-- A DICOM tag: 16-bit group and 16-bit element. -/
structure Tag where
  group : Nat
  element : Nat
deriving DecidableEq, Repr

def Tag.FileMetaInformationGroupLength : Tag := ⟨0x0002, 0x0000⟩

def Tag.TransferSyntaxUID : Tag := ⟨0x0002, 0x0010⟩

def Tag.SpecificCharacterSet : Tag := ⟨0x0008, 0x0005⟩

def Tag.PixelData : Tag := ⟨0x7FE0, 0x0010⟩

/-- Decoded value variants (element.go is outside the surveyed sources;
variants follow the spec table in section 3; float bit patterns are kept
as raw bytes, undecoded). -/
inductive Value where
  | strings (ss : List String)
  | ints (ns : List Int)
  | floats (raw : List Nat)
  | bytes (bs : List Nat)
  | tags (ts : List Tag)
deriving DecidableEq, Repr

inductive ValueType where
  | Strings
  | Ints
  | Floats
  | Bytes
  | Tags
deriving DecidableEq, Repr

def Value.valueType : Value → ValueType
  | .strings _ => .Strings
  | .ints _ => .Ints
  | .floats _ => .Floats
  | .bytes _ => .Bytes
  | .tags _ => .Tags

/-- A dataset element: tag, raw VR code, declared value length, decoded value. -/
structure Element where
  tag : Tag
  rawVR : String
  valueLength : Nat
  value : Value
deriving DecidableEq, Repr

/-- Modelled from the spec: ordered top-level element list with first-match
lookup by tag (the Dataset type is declared outside the surveyed sources). -/
structure Dataset where
  Elements : List Element
deriving DecidableEq, Repr

def Dataset.FindElementByTag (ds : Dataset) (t : Tag) : Except DicomError Element :=
  match ds.Elements.find? (fun e => decide (e.tag = t)) with
  | some e => .ok e
  | none => .error .elementNotFound

/-- Modelled from the spec: MustGetStrings extracts the string items of a
string-valued element value. In the source it panics on other variants; the
model returns the empty list there, a case no settled claim exercises. -/
def MustGetStrings : Value → List String
  | .strings ss => ss
  | _ => []

/-- Modelled from the spec: the frame sink is a closeable resource; only its
close count is observed here (frame emission belongs to the pixel-data path,
which is outside the fragment the claims exercise). -/
structure FrameSink where
  closeCount : Nat
deriving DecidableEq, Repr

/-- Modelled from the spec, section 4.1: the limited reader. The limit stack
holds absolute end offsets, innermost first; the stack is created with the
bytesToRead bound of NewReader as its base entry. The implicit-VR flag starts
false (the meta header must be readable in explicit VR) and the byte order is
the one given to NewReader. -/
structure Reader where
  data : List Nat
  pos : Nat
  limits : List Nat
  bo : ByteOrder
  implicit : Bool
  cs : CodingSystem
deriving DecidableEq, Repr

def Reader.new (data : List Nat) (bo : ByteOrder) (bytesToRead : Nat) : Reader :=
  ⟨data, 0, [bytesToRead], bo, false, ⟨[]⟩⟩

/-- The narrowest active limit, as an absolute end offset. -/
def Reader.curLimit (r : Reader) : Nat :=
  r.limits.headD r.data.length

def Reader.isLimitExhausted (r : Reader) : Bool :=
  r.curLimit - r.pos = 0

/-- Modelled from the spec: a read crossing the narrowest active limit fails;
a read past the end of the underlying stream fails. -/
def Reader.readBytes (r : Reader) (n : Nat) : Except DicomError (List Nat × Reader) :=
  if r.pos + n > r.curLimit then .error .truncated
  else if r.pos + n > r.data.length then .error .unexpectedEOF
  else .ok ((r.data.drop r.pos).take n, { r with pos := r.pos + n })

def Reader.skip (r : Reader) (n : Nat) : Except DicomError Reader :=
  match r.readBytes n with
  | .error e => .error e
  | .ok (_, r') => .ok r'

/-- ASCII interpretation of raw bytes. -/
def asciiStr (bs : List Nat) : String :=
  String.mk (bs.map (fun b => Char.ofNat b))

def Reader.readString (r : Reader) (n : Nat) : Except DicomError (String × Reader) :=
  match r.readBytes n with
  | .error e => .error e
  | .ok (bs, r') => .ok (asciiStr bs, r')

/-- Little-endian accumulation of a byte list into a natural number. -/
def natOfBytesLE : List Nat → Nat
  | [] => 0
  | b :: rest => b + 256 * natOfBytesLE rest

def natOfBytes (bo : ByteOrder) (bs : List Nat) : Nat :=
  match bo with
  | .littleEndian => natOfBytesLE bs
  | .bigEndian => natOfBytesLE bs.reverse

def Reader.readUInt16 (r : Reader) : Except DicomError (Nat × Reader) :=
  match r.readBytes 2 with
  | .error e => .error e
  | .ok (bs, r') => .ok (natOfBytes r.bo bs, r')

def Reader.readUInt32 (r : Reader) : Except DicomError (Nat × Reader) :=
  match r.readBytes 4 with
  | .error e => .error e
  | .ok (bs, r') => .ok (natOfBytes r.bo bs, r')

/-- Modelled from the spec: PushLimit declares a sub-scope of n bytes; it may
not widen the narrowest active limit. -/
def Reader.pushLimit (r : Reader) (n : Nat) : Except DicomError Reader :=
  if r.pos + n > r.curLimit then .error .limitExceeded
  else .ok { r with limits := (r.pos + n) :: r.limits }

def Reader.popLimit (r : Reader) : Reader :=
  { r with limits := r.limits.tail }

def Reader.setCodingSystem (r : Reader) (c : CodingSystem) : Reader :=
  { r with cs := c }

/-- Modelled from the spec, section 4.2: VR codes whose explicit-VR headers
carry 2 reserved bytes and a 32-bit length. -/
def longLengthVRs : List String :=
  ["OB", "OW", "OF", "OD", "OL", "UN", "SQ", "UT", "UC", "UR"]

/-- Text VR codes, decoded to backslash-separated string items. -/
def textVRs : List String :=
  ["AE", "AS", "CS", "DA", "DS", "DT", "IS", "LO", "LT", "PN",
   "SH", "ST", "TM", "UC", "UI", "UR", "UT"]

/-- Text VR codes routed through the active character set decoder. -/
def charsetTextVRs : List String :=
  ["LO", "LT", "PN", "SH", "ST", "UC", "UT"]

/-- VR codes decoded as raw byte buffers. -/
def byteVRs : List String :=
  ["OB", "OW", "OF", "OD", "OL", "UN"]

def undefinedLength : Nat := 0xFFFFFFFF

/-- Modelled from the spec: the tag dictionary is an external static lookup
from tag to canonical VR; a representative finite table is enough for the
implicit-VR paths the claims exercise, and unknown tags resolve to UN. -/
def lookupVR (t : Tag) : String :=
  if t = Tag.FileMetaInformationGroupLength then "UL"
  else if t = Tag.TransferSyntaxUID then "UI"
  else if t = Tag.SpecificCharacterSet then "CS"
  else if t = ⟨0x0008, 0x0018⟩ then "UI"
  else if t = ⟨0x0010, 0x0010⟩ then "PN"
  else if t = ⟨0x0028, 0x0010⟩ then "US"
  else if t = ⟨0x0028, 0x0011⟩ then "US"
  else "UN"

/-- Trailing padding byte stripped from a text value: NUL for UI, SPACE else. -/
def padOf (vr : String) : Nat :=
  if vr = "UI" then 0x00 else 0x20

def stripTrailing (pad : Nat) (bs : List Nat) : List Nat :=
  (bs.reverse.dropWhile (fun b => decide (b = pad))).reverse

/-- Splits a byte list on a separator byte; on the empty list this yields one
empty component, matching string splitting in the source language. -/
def splitOnByte (sep : Nat) : List Nat → List (List Nat)
  | [] => [[]]
  | b :: rest =>
    let r := splitOnByte sep rest
    if b = sep then [] :: r
    else
      match r with
      | [] => [[b]]
      | h :: t => (b :: h) :: t

/-- Modelled from the spec: the installed character set decoder is an external
black box; its action on bytes is modelled as the ASCII interpretation. -/
def decodeWithCharset (_c : CodingSystem) (bs : List Nat) : String :=
  asciiStr bs

def bytesToNat16 (bo : ByteOrder) (b0 b1 : Nat) : Nat :=
  match bo with
  | .littleEndian => b0 + 256 * b1
  | .bigEndian => b1 + 256 * b0

def decodeInt16s (bo : ByteOrder) (signed : Bool) : List Nat → List Int
  | b0 :: b1 :: rest =>
    (let v := bytesToNat16 bo b0 b1
     if signed ∧ v ≥ 0x8000 then (v : Int) - 0x10000 else (v : Int))
      :: decodeInt16s bo signed rest
  | _ => []

def decodeInt32s (bo : ByteOrder) (signed : Bool) : List Nat → List Int
  | b0 :: b1 :: b2 :: b3 :: rest =>
    (let v := natOfBytes bo [b0, b1, b2, b3]
     if signed ∧ v ≥ 0x80000000 then (v : Int) - 0x100000000 else (v : Int))
      :: decodeInt32s bo signed rest
  | _ => []

def decodeTags (bo : ByteOrder) : List Nat → List Tag
  | a :: b :: c :: d :: rest =>
    ⟨bytesToNat16 bo a b, bytesToNat16 bo c d⟩ :: decodeTags bo rest
  | _ => []

/-- Modelled from the spec, section 4.3: shape checks on a declared value
length before the value bytes are consumed. Sequences (and with them the
undefined-length and pixel-data paths of sections 4.4 and 4.5) lie outside
the fragment the claims exercise and surface as malformedSequence. -/
def valueGuard (vr : String) (len : Nat) : Option DicomError :=
  if vr = "SQ" then some .malformedSequence
  else if textVRs.contains vr ∨ byteVRs.contains vr then none
  else if vr = "US" ∨ vr = "SS" then
    (if len % 2 = 0 then none else some .malformedValue)
  else if vr = "UL" ∨ vr = "SL" ∨ vr = "AT" ∨ vr = "FL" then
    (if len % 4 = 0 then none else some .malformedValue)
  else if vr = "FD" then
    (if len % 8 = 0 then none else some .malformedValue)
  else some .malformedValue

/-- Modelled from the spec, section 4.3: pure interpretation of the value
bytes of a primitive VR. -/
def interpretValue (c : CodingSystem) (bo : ByteOrder) (vr : String)
    (bs : List Nat) : Value :=
  if textVRs.contains vr then
    let parts := splitOnByte 0x5C (stripTrailing (padOf vr) bs)
    if charsetTextVRs.contains vr then
      .strings (parts.map (fun p => decodeWithCharset c p))
    else
      .strings (parts.map asciiStr)
  else if vr = "US" then .ints (decodeInt16s bo false bs)
  else if vr = "SS" then .ints (decodeInt16s bo true bs)
  else if vr = "UL" then .ints (decodeInt32s bo false bs)
  else if vr = "SL" then .ints (decodeInt32s bo true bs)
  else if vr = "AT" then .tags (decodeTags bo bs)
  else if vr = "FL" ∨ vr = "FD" then .floats bs
  else .bytes bs

/-- Modelled from the spec, section 4.3: consume exactly len bytes and decode
them according to the VR. -/
def readValue (r : Reader) (vr : String) (len : Nat) :
    Except DicomError (Value × Reader) :=
  match valueGuard vr len with
  | some e => .error e
  | none =>
    match r.readBytes len with
    | .error e => .error e
    | .ok (bs, r') => .ok (interpretValue r.cs r.bo vr bs, r')

/-- Modelled from the spec, sections 4.2 and 4.3: read one element, header
then value, in the transfer syntax currently installed on the reader. The
source function also receives the dataset in progress and the frame sink for
the pixel-data path, which is outside the fragment the claims exercise. -/
def readElement (r : Reader) : Except DicomError (Element × Reader) :=
  match r.readUInt16 with
  | .error e => .error e
  | .ok (g, r1) =>
    match r1.readUInt16 with
    | .error e => .error e
    | .ok (el, r2) =>
      let t : Tag := ⟨g, el⟩
      if r2.implicit then
        match r2.readUInt32 with
        | .error e => .error e
        | .ok (len, r3) =>
          if len = undefinedLength then .error .malformedSequence
          else
            match readValue r3 (lookupVR t) len with
            | .error e => .error e
            | .ok (v, r4) => .ok (⟨t, lookupVR t, len, v⟩, r4)
      else
        match r2.readString 2 with
        | .error e => .error e
        | .ok (vrs, r3) =>
          if longLengthVRs.contains vrs then
            match r3.readBytes 2 with
            | .error e => .error e
            | .ok (_, r4) =>
              match r4.readUInt32 with
              | .error e => .error e
              | .ok (len, r5) =>
                if len = undefinedLength then .error .malformedSequence
                else
                  match readValue r5 vrs len with
                  | .error e => .error e
                  | .ok (v, r6) => .ok (⟨t, vrs, len, v⟩, r6)
          else
            match r3.readUInt16 with
            | .error e => .error e
            | .ok (len, r4) =>
              match readValue r4 vrs len with
              | .error e => .error e
              | .ok (v, r5) => .ok (⟨t, vrs, len, v⟩, r5)

/-- Modelled from the spec: the specific-character-set registry resolves a
list of names; any unknown name is an unresolvable-charset error. -/
def knownCharsetNames : List String :=
  ["", "ISO_IR 6", "ISO_IR 100", "ISO_IR 13", "ISO_IR 144",
   "ISO_IR 192", "ISO 2022 IR 6"]

def ParseSpecificCharacterSet (names : List String) :
    Except DicomError CodingSystem :=
  if names.all (fun n => knownCharsetNames.contains n) then .ok ⟨names⟩
  else .error .unresolvableCharset

/-- Modelled from the spec, section 4.7: the transfer syntax table. An
unresolved identifier yields the little-endian implicit default together
with a non-fatal error, per the defaulting rule of the spec. -/
def ParseTransferSyntaxUID (s : String) :
    ByteOrder × Bool × Option DicomError :=
  if s = "1.2.840.10008.1.2" then (.littleEndian, true, none)
  else if s = "1.2.840.10008.1.2.1" ∨ s = "1.2.840.10008.1.2.1.99"
      ∨ s = "1.2.840.10008.1.2.5" then (.littleEndian, false, none)
  else if s = "1.2.840.10008.1.2.2" then (.bigEndian, false, none)
  else if "1.2.840.10008.1.2.4.".isPrefixOf s then (.littleEndian, false, none)
  else (.littleEndian, true, some .unrecognizedTransferUID)

def magicWord : String := "DICM"

/-- Group length value extraction used by readHeader: in the source this is
a type assertion to an int slice followed by indexing; the guard in
readHeader makes the assertion safe, and the claims never reach the
empty-slice or negative cases. -/
def metaLenOf : Value → Nat
  | .ints ns => (ns.headD 0).toNat
  | _ => 0

/-- The metadata element loop of readHeader (parse.go lines 124 to 131):
keep reading elements until the pushed group limit is exhausted. The fuel
argument bounds the recursion; each successful element read consumes at
least one byte, so a fuel of one more than the input length is never
exhausted on runs the source performs. -/
def readMetaElems : Nat → Reader → List Element →
    Except DicomError (List Element × Reader)
  | 0, _, _ => .error .outOfFuel
  | Nat.succ fuel, r, acc =>
    if r.isLimitExhausted then .ok (acc, r)
    else
      match readElement r with
      | .error e => .error e
      | .ok (elem, r') => readMetaElems fuel r' (acc ++ [elem])

/-- The limited portion of readHeader after the group length element
(parse.go lines 115 to 132): push the declared group length as a limit,
read elements until it is exhausted, pop the limit. -/
def readMetaGroup (r : Reader) (metaLen : Nat) (firstElem : Element) :
    Except DicomError (List Element × Reader) :=
  match r.pushLimit metaLen with
  | .error e => .error e
  | .ok r1 =>
    match readMetaElems (r1.data.length + 1) r1 [firstElem] with
    | .error e => .error e
    | .ok (elems, r2) => .ok (elems, r2.popLimit)

/-- readHeader of parse.go: skip the 128 byte preamble, check the DICM magic
word, read the group length element, check its tag and value type, then read
the rest of the meta group under the declared limit. A failed magic word read
is reported as the magic word error, as in the source. -/
def readHeader (r : Reader) : Except DicomError (List Element × Reader) :=
  match r.skip 128 with
  | .error e => .error e
  | .ok r1 =>
    match r1.readString 4 with
    | .error _ => .error .magicWord
    | .ok (s, r2) =>
      if s = magicWord then
        match readElement r2 with
        | .error e => .error e
        | .ok (maybeMetaLen, r3) =>
          if maybeMetaLen.tag ≠ Tag.FileMetaInformationGroupLength
              ∨ maybeMetaLen.value.valueType ≠ ValueType.Ints then
            .error .metaElementGroupLength
          else
            readMetaGroup r3 (metaLenOf maybeMetaLen.value) maybeMetaLen
      else .error .magicWord

/-- Parser configuration, as in parse.go. -/
structure options where
  assumeNoHeaderAndOffset : Bool
deriving DecidableEq

/-- A parser option is a function updating the configuration. -/
def ParseOption := options → options

def AssumeNoHeaderAndOffset : ParseOption :=
  fun o => { o with assumeNoHeaderAndOffset := true }

/-- Parser state, as the parser struct of parse.go. -/
structure parser where
  reader : Reader
  dataset : Dataset
  frameSink : Option FrameSink
deriving DecidableEq

/-- NewParser of parse.go: build a little-endian reader bounded by
bytesToRead, apply the options, and, unless the assume-no-header option is
set, read the header and record its elements as the initial dataset. -/
def NewParser (data : List Nat) (bytesToRead : Nat) (sink : Option FrameSink)
    (opts : List ParseOption) : Except DicomError parser :=
  let reader := Reader.new data .littleEndian bytesToRead
  let o := opts.foldl (fun acc f => f acc) ⟨false⟩
  if o.assumeNoHeaderAndOffset = false then
    match readHeader reader with
    | .error e => .error e
    | .ok (elems, r') => .ok ⟨r', ⟨elems⟩, sink⟩
  else .ok ⟨reader, ⟨[]⟩, sink⟩

/-- Result of Parse: the source returns a dataset and an error value side by
side, and the sink state is carried explicitly in the model. -/
structure ParseResult where
  dataset : Dataset
  err : Option DicomError
  sink : Option FrameSink
deriving DecidableEq

/-- The close performed at the end of Parse when the frame channel is
non-nil. -/
def closeSink : Option FrameSink → Option FrameSink
  | none => none
  | some s => some ⟨s.closeCount + 1⟩

/-- The transfer syntax setup at the top of Parse (parse.go lines 136 to
146): when the TransferSyntaxUID element is found, its first string value is
resolved and the result installed on the reader even when resolution
reported an error; when the element is absent, only a warning is logged and
the reader is left untouched. -/
def applyTransferSyntaxFromMeta (ds : Dataset) (r : Reader) : Reader :=
  match ds.FindElementByTag Tag.TransferSyntaxUID with
  | .error _ => r
  | .ok ts =>
    let pr := ParseTransferSyntaxUID ((MustGetStrings ts.value).headD "")
    { r with bo := pr.1, implicit := pr.2.1 }

/-- The element loop of Parse (parse.go lines 147 to 177): read elements
until the reader limit is exhausted; a failed element read discards the
dataset in progress; a specific-character-set element installs the resolved
decoder on the reader before the next element is read, and an unresolvable
character set returns the dataset accumulated so far; on clean exhaustion
the frame sink, when present, is closed. The fuel argument bounds the
recursion as in readMetaElems. -/
def parseLoop : Nat → Reader → Dataset → Option FrameSink → ParseResult
  | 0, _, _, sink => ⟨⟨[]⟩, some .outOfFuel, sink⟩
  | Nat.succ fuel, r, ds, sink =>
    if r.isLimitExhausted then ⟨ds, none, closeSink sink⟩
    else
      match readElement r with
      | .error e => ⟨⟨[]⟩, some e, sink⟩
      | .ok (elem, r') =>
        if elem.tag = Tag.SpecificCharacterSet then
          match ParseSpecificCharacterSet (MustGetStrings elem.value) with
          | .error ce => ⟨ds, some ce, sink⟩
          | .ok c =>
            parseLoop fuel (r'.setCodingSystem c) ⟨ds.Elements ++ [elem]⟩ sink
        else parseLoop fuel r' ⟨ds.Elements ++ [elem]⟩ sink

/-- Parse of parse.go: install the transfer syntax from the meta elements,
then run the element loop over the remaining input. -/
def parser.Parse (p : parser) : ParseResult :=
  let r := applyTransferSyntaxFromMeta p.dataset p.reader
  parseLoop (r.data.length + 1) r p.dataset p.frameSink

/-- The 128 byte zero preamble. -/
def preambleBytes : List Nat := List.replicate 128 0

/-- The DICM magic word bytes. -/
def dicmBytes : List Nat := [0x44, 0x49, 0x43, 0x4D]

/-- File meta group length element: tag (0002,0000), VR UL, length 4,
value 28. -/
def fmiglElemBytes : List Nat :=
  [0x02, 0, 0, 0, 0x55, 0x4C, 4, 0, 28, 0, 0, 0]

/-- The explicit-VR little-endian transfer syntax identifier, NUL padded. -/
def tsuidValueBytes : List Nat :=
  [49, 46, 50, 46, 56, 52, 48, 46, 49, 48, 48, 48, 56, 46, 49, 46, 50, 46, 49, 0]

/-- Transfer syntax element: tag (0002,0010), VR UI, length 20. -/
def tsuidElemBytes : List Nat :=
  [0x02, 0, 0x10, 0, 0x55, 0x49, 20, 0] ++ tsuidValueBytes

/-- Patient name element: tag (0010,0010), VR PN, length 4, value DOE with a
trailing caret. -/
def pnElemBytes : List Nat :=
  [0x10, 0, 0x10, 0, 0x50, 0x4E, 4, 0, 68, 79, 69, 94]

/-- The minimal wrapped file of spec scenario 1, with a self-consistent meta
group length of 28 bytes covering the transfer syntax element. -/
def minimalFileBytes : List Nat :=
  preambleBytes ++ dicmBytes ++ fmiglElemBytes ++ tsuidElemBytes ++ pnElemBytes

def fmiglElem : Element := ⟨⟨2, 0⟩, "UL", 4, .ints [28]⟩

def tsuidElem : Element := ⟨⟨2, 0x10⟩, "UI", 20, .strings ["1.2.840.10008.1.2.1"]⟩

def pnElem : Element := ⟨⟨0x10, 0x10⟩, "PN", 4, .strings ["DOE^"]⟩

/-- An input whose group length element carries VR US instead of UL, with
value 0, so the meta group body is empty. -/
def usGroupLenInput : List Nat :=
  preambleBytes ++ dicmBytes ++ [2, 0, 0, 0, 0x55, 0x53, 2, 0, 0, 0]

/-- Preamble followed by DICX instead of DICM. -/
def badMagicInput : List Nat := preambleBytes ++ [68, 73, 67, 88]

/-- An input whose first element after the magic word is the transfer syntax
element rather than the group length element. -/
def wrongFirstTagInput : List Nat :=
  preambleBytes ++ dicmBytes ++ tsuidElemBytes

/-- The minimal file cut 4 bytes short, truncating the patient name value. -/
def truncatedInput : List Nat := minimalFileBytes.take 180

/-- The parser state NewParser produces on the minimal file with a frame
sink attached. -/
def minimalParserSink : parser :=
  ⟨⟨minimalFileBytes, 172, [184], .littleEndian, false, ⟨[]⟩⟩,
   ⟨[fmiglElem, tsuidElem]⟩, some ⟨0⟩⟩

/-- The parser state NewParser produces on the truncated file with a frame
sink attached. -/
def truncParser : parser :=
  ⟨⟨truncatedInput, 172, [180], .littleEndian, false, ⟨[]⟩⟩,
   ⟨[fmiglElem, tsuidElem]⟩, some ⟨0⟩⟩

/-- Specific character set element with the unknown name ISO_IR 999. -/
def scsBadElemBytes : List Nat :=
  [8, 0, 5, 0, 0x43, 0x53, 10, 0] ++ [73, 83, 79, 95, 73, 82, 32, 57, 57, 57]

/-- Specific character set element with the known name ISO_IR 100. -/
def scsGoodElemBytes : List Nat :=
  [8, 0, 5, 0, 0x43, 0x53, 10, 0] ++ [73, 83, 79, 95, 73, 82, 32, 49, 48, 48]

def csBadInput : List Nat :=
  preambleBytes ++ dicmBytes ++ fmiglElemBytes ++ tsuidElemBytes ++ scsBadElemBytes

def csGoodInput : List Nat :=
  preambleBytes ++ dicmBytes ++ fmiglElemBytes ++ tsuidElemBytes ++ scsGoodElemBytes

def scsBadElem : Element := ⟨⟨8, 5⟩, "CS", 10, .strings ["ISO_IR 999"]⟩

def scsGoodElem : Element := ⟨⟨8, 5⟩, "CS", 10, .strings ["ISO_IR 100"]⟩

/-- Body-loop entry reader for the unresolvable-charset file, after header
parsing and transfer syntax installation. -/
def csBadLoopReader : Reader :=
  ⟨csBadInput, 172, [190], .littleEndian, false, ⟨[]⟩⟩

/-- Body-loop entry reader for the resolvable-charset file. -/
def csGoodLoopReader : Reader :=
  ⟨csGoodInput, 172, [190], .littleEndian, false, ⟨[]⟩⟩

/-- Auxiliary relation for the reader invariants: rB is rA advanced by k
bytes, with every other reader field unchanged. -/
def StepsTo (rA rB : Reader) (k : Nat) : Prop :=
  rB.data = rA.data ∧ rB.limits = rA.limits ∧ rB.bo = rA.bo
    ∧ rB.implicit = rA.implicit ∧ rB.cs = rA.cs ∧ rB.pos = rA.pos + k

/-- Errors a failed element read can carry: read failures and shape
failures, never the charset error. -/
def IsElementReadError (e : DicomError) : Prop :=
  e = .truncated ∨ e = .unexpectedEOF ∨ e = .malformedValue
    ∨ e = .malformedSequence

/-- Decidable equality on results, for evaluating concrete runs. -/
instance {e a : Type} [DecidableEq e] [DecidableEq a] : DecidableEq (Except e a) :=
  fun x y =>
    match x, y with
    | .error e1, .error e2 => decidable_of_iff (e1 = e2) (by simp)
    | .ok v1, .ok v2 => decidable_of_iff (v1 = v2) (by simp)
    | .error _, .ok _ => isFalse (by simp)
    | .ok _, .error _ => isFalse (by simp)

theorem readBytes_ok {r : Reader} {n : Nat} {bs : List Nat} {r' : Reader}
    (h : r.readBytes n = .ok (bs, r')) :
    r' = { r with pos := r.pos + n } ∧ r.pos + n ≤ r.curLimit
      ∧ r.pos + n ≤ r.data.length := by
  unfold Reader.readBytes at h
  split at h
  · exact absurd h (by simp)
  · split at h
    · exact absurd h (by simp)
    · simp only [Except.ok.injEq, Prod.mk.injEq] at h
      refine ⟨h.2.symm, ?_, ?_⟩ <;> omega

theorem readUInt16_ok {r : Reader} {v : Nat} {r' : Reader}
    (h : r.readUInt16 = .ok (v, r')) :
    r' = { r with pos := r.pos + 2 } ∧ r.pos + 2 ≤ r.curLimit
      ∧ r.pos + 2 ≤ r.data.length := by
  unfold Reader.readUInt16 at h
  cases hb : r.readBytes 2 with
  | error e => rw [hb] at h; exact absurd h (by simp)
  | ok p =>
    obtain ⟨b, r2⟩ := p
    rw [hb] at h
    simp only [Except.ok.injEq, Prod.mk.injEq] at h
    obtain ⟨e1, e2, e3⟩ := readBytes_ok hb
    exact ⟨h.2 ▸ e1, e2, e3⟩

theorem readUInt32_ok {r : Reader} {v : Nat} {r' : Reader}
    (h : r.readUInt32 = .ok (v, r')) :
    r' = { r with pos := r.pos + 4 } ∧ r.pos + 4 ≤ r.curLimit
      ∧ r.pos + 4 ≤ r.data.length := by
  unfold Reader.readUInt32 at h
  cases hb : r.readBytes 4 with
  | error e => rw [hb] at h; exact absurd h (by simp)
  | ok p =>
    obtain ⟨b, r2⟩ := p
    rw [hb] at h
    simp only [Except.ok.injEq, Prod.mk.injEq] at h
    obtain ⟨e1, e2, e3⟩ := readBytes_ok hb
    exact ⟨h.2 ▸ e1, e2, e3⟩

theorem readString_ok {r : Reader} {n : Nat} {s : String} {r' : Reader}
    (h : r.readString n = .ok (s, r')) :
    r' = { r with pos := r.pos + n } ∧ r.pos + n ≤ r.curLimit
      ∧ r.pos + n ≤ r.data.length := by
  unfold Reader.readString at h
  cases hb : r.readBytes n with
  | error e => rw [hb] at h; exact absurd h (by simp)
  | ok p =>
    obtain ⟨b, r2⟩ := p
    rw [hb] at h
    simp only [Except.ok.injEq, Prod.mk.injEq] at h
    obtain ⟨e1, e2, e3⟩ := readBytes_ok hb
    exact ⟨h.2 ▸ e1, e2, e3⟩

theorem readValue_ok {r : Reader} {vr : String} {len : Nat} {v : Value}
    {r' : Reader} (h : readValue r vr len = .ok (v, r')) :
    r' = { r with pos := r.pos + len } ∧ r.pos + len ≤ r.curLimit := by
  unfold readValue at h
  split at h
  · exact absurd h (by simp)
  · cases hb : r.readBytes len with
    | error e => rw [hb] at h; exact absurd h (by simp)
    | ok p =>
      obtain ⟨b, r2⟩ := p
      rw [hb] at h
      simp only [Except.ok.injEq, Prod.mk.injEq] at h
      obtain ⟨e1, e2, -⟩ := readBytes_ok hb
      exact ⟨h.2 ▸ e1, e2⟩


theorem StepsTo.trans {rA rB rC : Reader} {j k : Nat}
    (h1 : StepsTo rA rB j) (h2 : StepsTo rB rC k) : StepsTo rA rC (j + k) := by
  obtain ⟨a1, a2, a3, a4, a5, a6⟩ := h1
  obtain ⟨b1, b2, b3, b4, b5, b6⟩ := h2
  refine ⟨by rw [b1, a1], by rw [b2, a2], by rw [b3, a3],
    by rw [b4, a4], by rw [b5, a5], by omega⟩

theorem StepsTo.curLimit_eq {rA rB : Reader} {k : Nat} (h : StepsTo rA rB k) :
    rB.curLimit = rA.curLimit := by
  obtain ⟨a1, a2, -, -, -, -⟩ := h
  unfold Reader.curLimit
  rw [a1, a2]

theorem readBytes_steps {r : Reader} {n : Nat} {bs : List Nat} {r' : Reader}
    (h : r.readBytes n = .ok (bs, r')) :
    StepsTo r r' n ∧ r.pos + n ≤ r.curLimit := by
  obtain ⟨e1, e2, -⟩ := readBytes_ok h
  subst e1
  exact ⟨⟨rfl, rfl, rfl, rfl, rfl, rfl⟩, e2⟩

theorem readUInt16_steps {r : Reader} {v : Nat} {r' : Reader}
    (h : r.readUInt16 = .ok (v, r')) :
    StepsTo r r' 2 ∧ r.pos + 2 ≤ r.curLimit := by
  obtain ⟨e1, e2, -⟩ := readUInt16_ok h
  subst e1
  exact ⟨⟨rfl, rfl, rfl, rfl, rfl, rfl⟩, e2⟩

theorem readUInt32_steps {r : Reader} {v : Nat} {r' : Reader}
    (h : r.readUInt32 = .ok (v, r')) :
    StepsTo r r' 4 ∧ r.pos + 4 ≤ r.curLimit := by
  obtain ⟨e1, e2, -⟩ := readUInt32_ok h
  subst e1
  exact ⟨⟨rfl, rfl, rfl, rfl, rfl, rfl⟩, e2⟩

theorem readString_steps {r : Reader} {n : Nat} {s : String} {r' : Reader}
    (h : r.readString n = .ok (s, r')) :
    StepsTo r r' n ∧ r.pos + n ≤ r.curLimit := by
  obtain ⟨e1, e2, -⟩ := readString_ok h
  subst e1
  exact ⟨⟨rfl, rfl, rfl, rfl, rfl, rfl⟩, e2⟩

theorem readValue_steps {r : Reader} {vr : String} {len : Nat} {v : Value}
    {r' : Reader} (h : readValue r vr len = .ok (v, r')) :
    StepsTo r r' len ∧ r.pos + len ≤ r.curLimit := by
  obtain ⟨e1, e2⟩ := readValue_ok h
  subst e1
  exact ⟨⟨rfl, rfl, rfl, rfl, rfl, rfl⟩, e2⟩

theorem readElement_steps {r : Reader} {el : Element} {r' : Reader}
    (h : readElement r = .ok (el, r')) :
    (∃ k, StepsTo r r' k) ∧ r'.pos ≤ r.curLimit := by
  unfold readElement at h
  split at h
  · exact absurd h (by simp)
  · rename_i g r1 hg
    split at h
    · exact absurd h (by simp)
    · rename_i el2 r2 hel
      obtain ⟨s1, -⟩ := readUInt16_steps hg
      obtain ⟨s2, -⟩ := readUInt16_steps hel
      split at h
      · split at h
        · exact absurd h (by simp)
        · rename_i len r3 hlen
          obtain ⟨s3, -⟩ := readUInt32_steps hlen
          split at h
          · exact absurd h (by simp)
          · dsimp only at h
            split at h
            · exact absurd h (by simp)
            · rename_i v r4 hv
              obtain ⟨s4, b4⟩ := readValue_steps hv
              simp only [Except.ok.injEq, Prod.mk.injEq] at h
              obtain ⟨-, hr⟩ := h
              subst hr
              have s123 := s1.trans (s2.trans s3)
              refine ⟨⟨_, s123.trans s4⟩, ?_⟩
              have hc := s123.curLimit_eq
              obtain ⟨-, -, -, -, -, hp⟩ := s4
              omega
      · split at h
        · exact absurd h (by simp)
        · rename_i vrs r3 hvr
          obtain ⟨s3, -⟩ := readString_steps hvr
          split at h
          · split at h
            · exact absurd h (by simp)
            · rename_i br r4 hres
              obtain ⟨s4, -⟩ := readBytes_steps hres
              split at h
              · exact absurd h (by simp)
              · rename_i len r5 hlen
                obtain ⟨s5, -⟩ := readUInt32_steps hlen
                split at h
                · exact absurd h (by simp)
                · split at h
                  · exact absurd h (by simp)
                  · rename_i v r6 hv
                    obtain ⟨s6, b6⟩ := readValue_steps hv
                    simp only [Except.ok.injEq, Prod.mk.injEq] at h
                    obtain ⟨-, hr⟩ := h
                    subst hr
                    have s0 := s1.trans (s2.trans (s3.trans (s4.trans s5)))
                    refine ⟨⟨_, s0.trans s6⟩, ?_⟩
                    have hc := s0.curLimit_eq
                    obtain ⟨-, -, -, -, -, hp⟩ := s6
                    omega
          · split at h
            · exact absurd h (by simp)
            · rename_i len r4 hlen
              obtain ⟨s4, -⟩ := readUInt16_steps hlen
              split at h
              · exact absurd h (by simp)
              · rename_i v r5 hv
                obtain ⟨s5, b5⟩ := readValue_steps hv
                simp only [Except.ok.injEq, Prod.mk.injEq] at h
                obtain ⟨-, hr⟩ := h
                subst hr
                have s0 := s1.trans (s2.trans (s3.trans s4))
                refine ⟨⟨_, s0.trans s5⟩, ?_⟩
                have hc := s0.curLimit_eq
                obtain ⟨-, -, -, -, -, hp⟩ := s5
                omega

theorem readElement_ok_inv {r : Reader} {el : Element} {r' : Reader}
    (h : readElement r = .ok (el, r')) :
    r'.data = r.data ∧ r'.limits = r.limits ∧ r'.bo = r.bo
      ∧ r'.implicit = r.implicit ∧ r'.cs = r.cs
      ∧ r.pos ≤ r'.pos ∧ r'.pos ≤ r.curLimit := by
  obtain ⟨⟨k, a1, a2, a3, a4, a5, a6⟩, hb⟩ := readElement_steps h
  exact ⟨a1, a2, a3, a4, a5, by omega, hb⟩

theorem readBytes_error {r : Reader} {n : Nat} {e : DicomError}
    (h : r.readBytes n = .error e) :
    e = .truncated ∨ e = .unexpectedEOF := by
  unfold Reader.readBytes at h
  split at h
  · simp only [Except.error.injEq] at h; exact Or.inl h.symm
  · split at h
    · simp only [Except.error.injEq] at h; exact Or.inr h.symm
    · exact absurd h (by simp)

theorem readUInt16_error {r : Reader} {e : DicomError}
    (h : r.readUInt16 = .error e) :
    e = .truncated ∨ e = .unexpectedEOF := by
  unfold Reader.readUInt16 at h
  cases hb : r.readBytes 2 with
  | error e2 =>
    rw [hb] at h
    simp only [Except.error.injEq] at h
    exact h ▸ readBytes_error hb
  | ok p => rw [hb] at h; exact absurd h (by simp)

theorem readUInt32_error {r : Reader} {e : DicomError}
    (h : r.readUInt32 = .error e) :
    e = .truncated ∨ e = .unexpectedEOF := by
  unfold Reader.readUInt32 at h
  cases hb : r.readBytes 4 with
  | error e2 =>
    rw [hb] at h
    simp only [Except.error.injEq] at h
    exact h ▸ readBytes_error hb
  | ok p => rw [hb] at h; exact absurd h (by simp)

theorem readString_error {r : Reader} {n : Nat} {e : DicomError}
    (h : r.readString n = .error e) :
    e = .truncated ∨ e = .unexpectedEOF := by
  unfold Reader.readString at h
  cases hb : r.readBytes n with
  | error e2 =>
    rw [hb] at h
    simp only [Except.error.injEq] at h
    exact h ▸ readBytes_error hb
  | ok p => rw [hb] at h; exact absurd h (by simp)

theorem valueGuard_error {vr : String} {len : Nat} {e : DicomError}
    (h : valueGuard vr len = some e) :
    e = .malformedValue ∨ e = .malformedSequence := by
  unfold valueGuard at h
  split at h
  · simp only [Option.some.injEq] at h; exact Or.inr h.symm
  · split at h
    · exact absurd h (by simp)
    · split at h
      · split at h
        · exact absurd h (by simp)
        · simp only [Option.some.injEq] at h; exact Or.inl h.symm
      · split at h
        · split at h
          · exact absurd h (by simp)
          · simp only [Option.some.injEq] at h; exact Or.inl h.symm
        · split at h
          · split at h
            · exact absurd h (by simp)
            · simp only [Option.some.injEq] at h; exact Or.inl h.symm
          · simp only [Option.some.injEq] at h; exact Or.inl h.symm

theorem readValue_error {r : Reader} {vr : String} {len : Nat} {e : DicomError}
    (h : readValue r vr len = .error e) : IsElementReadError e := by
  unfold readValue at h
  split at h
  · rename_i eg hg
    simp only [Except.error.injEq] at h
    subst h
    rcases valueGuard_error hg with h1 | h1
    · exact Or.inr (Or.inr (Or.inl h1))
    · exact Or.inr (Or.inr (Or.inr h1))
  · cases hb : r.readBytes len with
    | error e2 =>
      rw [hb] at h
      simp only [Except.error.injEq] at h
      subst h
      rcases readBytes_error hb with h1 | h1
      · exact Or.inl h1
      · exact Or.inr (Or.inl h1)
    | ok p => rw [hb] at h; exact absurd h (by simp)

theorem readElement_error {r : Reader} {e : DicomError}
    (h : readElement r = .error e) : IsElementReadError e := by
  unfold readElement at h
  split at h
  · rename_i e2 hg
    simp only [Except.error.injEq] at h
    subst h
    rcases readUInt16_error hg with h1 | h1
    · exact Or.inl h1
    · exact Or.inr (Or.inl h1)
  · rename_i g r1 hg
    split at h
    · rename_i e2 hel
      simp only [Except.error.injEq] at h
      subst h
      rcases readUInt16_error hel with h1 | h1
      · exact Or.inl h1
      · exact Or.inr (Or.inl h1)
    · rename_i el2 r2 hel
      split at h
      · split at h
        · rename_i e2 hlen
          simp only [Except.error.injEq] at h
          subst h
          rcases readUInt32_error hlen with h1 | h1
          · exact Or.inl h1
          · exact Or.inr (Or.inl h1)
        · rename_i len r3 hlen
          split at h
          · simp only [Except.error.injEq] at h
            exact Or.inr (Or.inr (Or.inr h.symm))
          · dsimp only at h
            split at h
            · rename_i e2 hv
              simp only [Except.error.injEq] at h
              subst h
              exact readValue_error hv
            · exact absurd h (by simp)
      · split at h
        · rename_i e2 hvr
          simp only [Except.error.injEq] at h
          subst h
          rcases readString_error hvr with h1 | h1
          · exact Or.inl h1
          · exact Or.inr (Or.inl h1)
        · rename_i vrs r3 hvr
          split at h
          · split at h
            · rename_i e2 hres
              simp only [Except.error.injEq] at h
              subst h
              rcases readBytes_error hres with h1 | h1
              · exact Or.inl h1
              · exact Or.inr (Or.inl h1)
            · rename_i br r4 hres
              split at h
              · rename_i e2 hlen
                simp only [Except.error.injEq] at h
                subst h
                rcases readUInt32_error hlen with h1 | h1
                · exact Or.inl h1
                · exact Or.inr (Or.inl h1)
              · rename_i len r5 hlen
                split at h
                · simp only [Except.error.injEq] at h
                  exact Or.inr (Or.inr (Or.inr h.symm))
                · split at h
                  · rename_i e2 hv
                    simp only [Except.error.injEq] at h
                    subst h
                    exact readValue_error hv
                  · exact absurd h (by simp)
          · split at h
            · rename_i e2 hlen
              simp only [Except.error.injEq] at h
              subst h
              rcases readUInt16_error hlen with h1 | h1
              · exact Or.inl h1
              · exact Or.inr (Or.inl h1)
            · rename_i len r4 hlen
              split at h
              · rename_i e2 hv
                simp only [Except.error.injEq] at h
                subst h
                exact readValue_error hv
              · exact absurd h (by simp)

theorem readElement_error_ne_charset {r : Reader} {e : DicomError}
    (h : readElement r = .error e) : e ≠ .unresolvableCharset := by
  rcases readElement_error h with h1 | h1 | h1 | h1 <;> subst h1 <;> simp

theorem readMetaElems_exhausts {fuel : Nat} {r : Reader} {acc es : List Element}
    {r' : Reader} (h : readMetaElems fuel r acc = .ok (es, r'))
    (hpos : r.pos ≤ r.curLimit) :
    r'.limits = r.limits ∧ r'.data = r.data ∧ r'.pos = r.curLimit := by
  induction fuel generalizing r acc with
  | zero => exact absurd h (by simp [readMetaElems])
  | succ fuel ih =>
    simp only [readMetaElems] at h
    split at h
    · rename_i hex
      simp only [Except.ok.injEq, Prod.mk.injEq] at h
      obtain ⟨-, hr⟩ := h
      subst hr
      unfold Reader.isLimitExhausted at hex
      simp only [decide_eq_true_eq] at hex
      exact ⟨rfl, rfl, by omega⟩
    · split at h
      · exact absurd h (by simp)
      · rename_i elem r2 hre
        obtain ⟨d1, d2, -, -, -, -, hb⟩ := readElement_ok_inv hre
        have hcl : r2.curLimit = r.curLimit := by
          unfold Reader.curLimit; rw [d1, d2]
        obtain ⟨l1, l2, l3⟩ := ih h (by omega)
        exact ⟨l1.trans d2, l2.trans d1, by rw [l3, hcl]⟩

theorem readMetaElems_accum {fuel : Nat} {r : Reader} {acc es : List Element}
    {r' : Reader} (h : readMetaElems fuel r acc = .ok (es, r')) :
    ∃ t, es = acc ++ t := by
  induction fuel generalizing r acc with
  | zero => exact absurd h (by simp [readMetaElems])
  | succ fuel ih =>
    simp only [readMetaElems] at h
    split at h
    · simp only [Except.ok.injEq, Prod.mk.injEq] at h
      exact ⟨[], by rw [← h.1, List.append_nil]⟩
    · split at h
      · exact absurd h (by simp)
      · rename_i elem r2 hre
        obtain ⟨t, ht⟩ := ih h
        exact ⟨elem :: t, by simp [ht]⟩

theorem pushLimit_ok {r : Reader} {n : Nat} {r' : Reader}
    (h : r.pushLimit n = .ok r') :
    r' = { r with limits := (r.pos + n) :: r.limits } ∧ r.pos + n ≤ r.curLimit := by
  unfold Reader.pushLimit at h
  split at h
  · exact absurd h (by simp)
  · simp only [Except.ok.injEq] at h
    exact ⟨h.symm, by omega⟩

theorem ParseSpecificCharacterSet_error {ns : List String} {e : DicomError}
    (h : ParseSpecificCharacterSet ns = .error e) : e = .unresolvableCharset := by
  unfold ParseSpecificCharacterSet at h
  split at h
  · exact absurd h (by simp)
  · simp only [Except.error.injEq] at h
    exact h.symm

theorem parseLoop_sink (fuel : Nat) (r : Reader) (ds : Dataset) (s : FrameSink) :
    ((parseLoop fuel r ds (some s)).err = none →
      (parseLoop fuel r ds (some s)).sink = some ⟨s.closeCount + 1⟩)
    ∧ ((parseLoop fuel r ds (some s)).err ≠ none →
      (parseLoop fuel r ds (some s)).sink = some s) := by
  induction fuel generalizing r ds with
  | zero => simp [parseLoop]
  | succ fuel ih =>
    simp only [parseLoop]
    split
    · simp [closeSink]
    · split
      · simp
      · split
        · split
          · simp
          · exact ih _ _
        · exact ih _ _

theorem parseLoop_err_empty {fuel : Nat} {r : Reader} {ds : Dataset}
    {sink : Option FrameSink} {e : DicomError}
    (h : (parseLoop fuel r ds sink).err = some e)
    (hne : e ≠ .unresolvableCharset) :
    (parseLoop fuel r ds sink).dataset = ⟨[]⟩ := by
  induction fuel generalizing r ds with
  | zero => simp [parseLoop]
  | succ fuel ih =>
    simp only [parseLoop] at h ⊢
    split at h
    · simp at h
    · rename_i hex
      rw [if_neg hex]
      split at h
      · rename_i e2 hre
        simp [hre]
      · rename_i elem r2 hre
        split at h
        · rename_i htag
          rw [if_pos htag]
          split at h
          · rename_i ce hcs
            exfalso
            simp only [Option.some.injEq] at h
            exact hne (h ▸ ParseSpecificCharacterSet_error hcs)
          · rename_i c hcs
            exact ih h
        · rename_i htag
          rw [if_neg htag]
          exact ih h

theorem parseLoop_charset_accum {fuel : Nat} {r : Reader} {ds : Dataset}
    {sink : Option FrameSink}
    (h : (parseLoop fuel r ds sink).err = some .unresolvableCharset) :
    ∃ tail, (parseLoop fuel r ds sink).dataset.Elements = ds.Elements ++ tail := by
  induction fuel generalizing r ds with
  | zero => simp [parseLoop] at h
  | succ fuel ih =>
    simp only [parseLoop] at h ⊢
    split at h
    · simp at h
    · rename_i hex
      rw [if_neg hex]
      split at h
      · rename_i e2 hre
        exfalso
        simp only [Option.some.injEq] at h
        exact readElement_error_ne_charset hre h
      · rename_i elem r2 hre
        split at h
        · rename_i htag
          rw [if_pos htag]
          split at h
          · rename_i ce hcs
            exact ⟨[], by simp⟩
          · rename_i c hcs
            obtain ⟨t, ht⟩ := ih h
            exact ⟨elem :: t, by simpa using ht⟩
        · rename_i htag
          rw [if_neg htag]
          obtain ⟨t, ht⟩ := ih h
          exact ⟨elem :: t, by simpa using ht⟩

theorem parseLoop_ok_extends {fuel : Nat} {r : Reader} {ds : Dataset}
    {sink : Option FrameSink}
    (h : (parseLoop fuel r ds sink).err = none) :
    ∃ tail, (parseLoop fuel r ds sink).dataset.Elements = ds.Elements ++ tail := by
  induction fuel generalizing r ds with
  | zero => simp [parseLoop] at h
  | succ fuel ih =>
    simp only [parseLoop] at h ⊢
    split at h
    · rename_i hex
      rw [if_pos hex]
      exact ⟨[], by rw [List.append_nil]⟩
    · rename_i hex
      rw [if_neg hex]
      split at h
      · rename_i e2 hre
        simp at h
      · rename_i elem r2 hre
        split at h
        · rename_i htag
          rw [if_pos htag]
          split at h
          · rename_i ce hcs
            simp at h
          · rename_i c hcs
            obtain ⟨t, ht⟩ := ih h
            exact ⟨elem :: t, by simpa using ht⟩
        · rename_i htag
          rw [if_neg htag]
          obtain ⟨t, ht⟩ := ih h
          exact ⟨elem :: t, by simpa using ht⟩

/-- C1 (code divergence exhibit): when the meta dataset has no
TransferSyntaxUID element, the transfer syntax setup of Parse leaves the
reader exactly as it was, in particular still in little-endian explicit-VR
mode (implicit = false), while the claim and the spec say the reader is left
in little-endian implicit mode; when the element is present but its UID
string is unresolvable, the reader is indeed set to little-endian implicit. -/
theorem transferSyntaxAbsent_leaves_explicit :
    applyTransferSyntaxFromMeta ⟨[]⟩ (Reader.new minimalFileBytes .littleEndian 184)
      = Reader.new minimalFileBytes .littleEndian 184
    ∧ (applyTransferSyntaxFromMeta ⟨[]⟩
        (Reader.new minimalFileBytes .littleEndian 184)).implicit = false
    ∧ (applyTransferSyntaxFromMeta
        ⟨[⟨Tag.TransferSyntaxUID, "UI", 8, .strings ["9.9.9.9"]⟩]⟩
        (Reader.new minimalFileBytes .littleEndian 184)).implicit = true
    ∧ (applyTransferSyntaxFromMeta
        ⟨[⟨Tag.TransferSyntaxUID, "UI", 8, .strings ["9.9.9.9"]⟩]⟩
        (Reader.new minimalFileBytes .littleEndian 184)).bo = .littleEndian := by
  refine ⟨rfl, rfl, ?_, ?_⟩ <;> decide

/-- C2 (amended): with a non-nil frame sink, Parse closes the sink exactly
once when it completes without error; when Parse returns an error, the sink
is not closed at all. -/
theorem parse_sink_closed_only_on_success (p : parser) (s : FrameSink)
    (hs : p.frameSink = some s) :
    ((parser.Parse p).err = none →
      (parser.Parse p).sink = some ⟨s.closeCount + 1⟩)
    ∧ ((parser.Parse p).err ≠ none → (parser.Parse p).sink = some s) := by
  unfold parser.Parse
  rw [hs]
  exact parseLoop_sink _ _ _ s

theorem parse_sink_closed_only_on_success_witness :
    (parser.Parse minimalParserSink).sink = some ⟨1⟩
      ∧ (parser.Parse truncParser).sink = some ⟨0⟩ :=
  ⟨(parse_sink_closed_only_on_success minimalParserSink ⟨0⟩ rfl).1 (by decide),
   (parse_sink_closed_only_on_success truncParser ⟨0⟩ rfl).2 (by decide)⟩

/-- C2 (counterexample to the claim as stated): on the truncated minimal
file, Parse returns an error and the frame sink close count is still 0, so
the sink is not closed on the failure path. -/
theorem parse_error_leaves_sink_unclosed :
    parser.Parse truncParser
      = ⟨⟨[]⟩, some .truncated, some ⟨0⟩⟩ := by decide

/-- C3: a successful limited meta-group read consumes exactly the declared
group length: the final reader position is the starting position plus the
declared length, and the pushed limit has been popped, restoring the limit
stack. -/
theorem readMetaGroup_consumes_exact_limit {r : Reader} {L : Nat}
    {fe : Element} {es : List Element} {r' : Reader}
    (h : readMetaGroup r L fe = .ok (es, r')) :
    r'.pos = r.pos + L ∧ r'.limits = r.limits := by
  unfold readMetaGroup at h
  split at h
  · exact absurd h (by simp)
  · rename_i r1 hpush
    obtain ⟨hq, hle⟩ := pushLimit_ok hpush
    subst hq
    split at h
    · exact absurd h (by simp)
    · rename_i elems r2 hloop
      simp only [Except.ok.injEq, Prod.mk.injEq] at h
      obtain ⟨-, hr⟩ := h
      subst hr
      obtain ⟨l1, l2, l3⟩ := readMetaElems_exhausts hloop
        (by simp [Reader.curLimit])
      constructor
      · rw [show r2.popLimit.pos = r2.pos from rfl, l3]
        rfl
      · rw [show r2.popLimit.limits = r2.limits.tail from rfl, l1]
        rfl

theorem readMetaGroup_consumes_exact_limit_witness :
    ∃ es r', readMetaGroup ⟨minimalFileBytes, 144, [184], .littleEndian,
        false, ⟨[]⟩⟩ 28 fmiglElem = .ok (es, r')
      ∧ r'.pos = 144 + 28 ∧ r'.limits = [184] := by
  have h : readMetaGroup ⟨minimalFileBytes, 144, [184], .littleEndian,
        false, ⟨[]⟩⟩ 28 fmiglElem
      = .ok ([fmiglElem, tsuidElem],
        ⟨minimalFileBytes, 172, [184], .littleEndian, false, ⟨[]⟩⟩) := by decide
  exact ⟨_, _, h, readMetaGroup_consumes_exact_limit h⟩

/-- C4: whenever the 4 bytes after the 128 byte preamble read back as a
string other than DICM, readHeader fails with the magic word error, and
NewParser (which runs readHeader) propagates that error, producing no
parser and hence no partial dataset. -/
theorem readHeader_bad_magic {data : List Nat} {n : Nat} (r1 r2 : Reader)
    (s : String) (sink : Option FrameSink)
    (h1 : (Reader.new data .littleEndian n).skip 128 = .ok r1)
    (h2 : r1.readString 4 = .ok (s, r2))
    (h3 : s ≠ magicWord) :
    readHeader (Reader.new data .littleEndian n) = .error .magicWord
    ∧ NewParser data n sink [] = .error .magicWord := by
  have hh : readHeader (Reader.new data .littleEndian n) = .error .magicWord := by
    unfold readHeader
    simp only [h1, h2]
    rw [if_neg h3]
  refine ⟨hh, ?_⟩
  simp only [NewParser, List.foldl_nil]
  rw [if_pos trivial, hh]

theorem readHeader_bad_magic_witness :
    readHeader (Reader.new badMagicInput .littleEndian 132) = .error .magicWord
    ∧ NewParser badMagicInput 132 none [] = .error .magicWord :=
  readHeader_bad_magic
    ⟨badMagicInput, 128, [132], .littleEndian, false, ⟨[]⟩⟩
    ⟨badMagicInput, 132, [132], .littleEndian, false, ⟨[]⟩⟩
    "DICX" none (by decide) (by decide) (by decide)

/-- C5 (counterexample to the claim as stated): an input whose first element
after the magic word is the group length tag with VR US (not UL) is accepted
by readHeader, which returns successfully instead of failing with the
missing-meta-group-length error, because the source checks the decoded value
type, not the VR code. -/
theorem readHeader_accepts_us_group_length :
    readHeader (Reader.new usGroupLenInput .littleEndian 142)
      = .ok ([⟨⟨2, 0⟩, "US", 2, .ints [0]⟩],
          ⟨usGroupLenInput, 142, [142], .littleEndian, false, ⟨[]⟩⟩)
    ∧ ("US" : String) ≠ "UL" :=
  ⟨by decide, by decide⟩

/-- C5 (amended): whenever the first element after the magic word does not
carry the FileMetaInformationGroupLength tag together with an integer-typed
value (value type Ints, as produced by VR UL, US, SL or SS), readHeader
fails with the missing-meta-group-length error. -/
theorem readHeader_requires_group_length_ints {r : Reader}
    (r1 r2 r3 : Reader) (s : String) (e : Element)
    (h1 : r.skip 128 = .ok r1)
    (h2 : r1.readString 4 = .ok (s, r2))
    (h3 : s = magicWord)
    (h4 : readElement r2 = .ok (e, r3))
    (h5 : e.tag ≠ Tag.FileMetaInformationGroupLength
        ∨ e.value.valueType ≠ ValueType.Ints) :
    readHeader r = .error .metaElementGroupLength := by
  unfold readHeader
  simp only [h1, h2]
  rw [if_pos h3]
  simp only [h4]
  rw [if_pos h5]

theorem readHeader_requires_group_length_ints_witness :
    readHeader (Reader.new wrongFirstTagInput .littleEndian 160)
      = .error .metaElementGroupLength :=
  readHeader_requires_group_length_ints
    ⟨wrongFirstTagInput, 128, [160], .littleEndian, false, ⟨[]⟩⟩
    ⟨wrongFirstTagInput, 132, [160], .littleEndian, false, ⟨[]⟩⟩
    ⟨wrongFirstTagInput, 160, [160], .littleEndian, false, ⟨[]⟩⟩
    magicWord tsuidElem
    (by decide) (by decide) rfl (by decide) (by decide)

/-- C6: whenever Parse ends with an error that is not the charset
resolution error, that is, whenever a body element read failed fatally, the
dataset in progress is discarded and the returned dataset is empty. -/
theorem parse_fatal_error_discards_dataset (p : parser) (e : DicomError)
    (h : (parser.Parse p).err = some e)
    (hne : e ≠ DicomError.unresolvableCharset) :
    (parser.Parse p).dataset = ⟨[]⟩ := by
  unfold parser.Parse at h ⊢
  exact parseLoop_err_empty h hne

theorem parse_fatal_error_discards_dataset_witness :
    (parser.Parse truncParser).dataset = ⟨[]⟩ :=
  parse_fatal_error_discards_dataset truncParser .truncated
    (by decide) (by decide)

theorem readHeader_shape {r : Reader} {es : List Element} {r' : Reader}
    (h : readHeader r = .ok (es, r')) :
    ∃ fe rest, es = fe :: rest
      ∧ fe.tag = Tag.FileMetaInformationGroupLength := by
  unfold readHeader at h
  split at h
  · exact absurd h (by simp)
  · rename_i r1 hskip
    split at h
    · exact absurd h (by simp)
    · rename_i s r2 hrs
      split at h
      · split at h
        · exact absurd h (by simp)
        · rename_i fe r3 hre
          split at h
          · exact absurd h (by simp)
          · rename_i hcond
            push_neg at hcond
            unfold readMetaGroup at h
            split at h
            · exact absurd h (by simp)
            · rename_i r4 hpush
              split at h
              · exact absurd h (by simp)
              · rename_i elems r5 hloop
                obtain ⟨t, ht⟩ := readMetaElems_accum hloop
                simp only [Except.ok.injEq, Prod.mk.injEq] at h
                obtain ⟨he, -⟩ := h
                exact ⟨fe, t, by rw [← he, ht]; rfl, hcond.1⟩
      · exact absurd h (by simp)

/-- C7: when a successfully decoded element carries the
SpecificCharacterSet tag and its value resolves in the charset registry,
the element loop continues with the resolved decoder installed on the
reader before any subsequent element is decoded (and the element itself is
appended); element reads themselves never change the installed decoder, so
every text element after it in file order is decoded with the new one. -/
theorem scs_installs_decoder_before_next_element (fuel : Nat) (r : Reader)
    (ds : Dataset) (sink : Option FrameSink) (elem : Element) (r' : Reader)
    (c : CodingSystem)
    (hex : ¬ r.isLimitExhausted = true)
    (hre : readElement r = .ok (elem, r'))
    (htag : elem.tag = Tag.SpecificCharacterSet)
    (hcs : ParseSpecificCharacterSet (MustGetStrings elem.value) = .ok c) :
    parseLoop (fuel + 1) r ds sink
      = parseLoop fuel (r'.setCodingSystem c) ⟨ds.Elements ++ [elem]⟩ sink
    ∧ (r'.setCodingSystem c).cs = c
    ∧ ∀ (rA : Reader) (eA : Element) (rB : Reader),
        readElement rA = .ok (eA, rB) → rB.cs = rA.cs := by
  refine ⟨?_, rfl, ?_⟩
  · simp only [parseLoop]
    rw [if_neg hex]
    simp only [hre]
    rw [if_pos htag]
    simp only [hcs]
  · intro rA eA rB hAB
    exact (readElement_ok_inv hAB).2.2.2.2.1

theorem scs_installs_decoder_before_next_element_witness :
    parseLoop 19 csGoodLoopReader ⟨[fmiglElem, tsuidElem]⟩ (some ⟨0⟩)
      = parseLoop 18 (Reader.setCodingSystem
          ⟨csGoodInput, 190, [190], .littleEndian, false, ⟨[]⟩⟩
          ⟨["ISO_IR 100"]⟩)
        ⟨[fmiglElem, tsuidElem, scsGoodElem]⟩ (some ⟨0⟩) :=
  (scs_installs_decoder_before_next_element 18 csGoodLoopReader
    ⟨[fmiglElem, tsuidElem]⟩ (some ⟨0⟩) scsGoodElem
    ⟨csGoodInput, 190, [190], .littleEndian, false, ⟨[]⟩⟩ ⟨["ISO_IR 100"]⟩
    (by decide) (by decide) (by decide) (by decide)).1

/-- C8: on a successful parse with a header, the dataset NewParser seeded
from readHeader forms the initial block of the dataset Parse returns, with
the group length element first, followed by the body elements in file
order; the witness instantiates this on the minimal wrapped file, whose
returned dataset has exactly 3 elements. -/
theorem parse_dataset_meta_then_body (data : List Nat) (n : Nat)
    (sink : Option FrameSink) (p : parser)
    (hp : NewParser data n sink [] = .ok p)
    (hok : (parser.Parse p).err = none) :
    ∃ metaElems r' tail,
      readHeader (Reader.new data .littleEndian n) = .ok (metaElems, r')
      ∧ (parser.Parse p).dataset.Elements = metaElems ++ tail
      ∧ ∃ fe rest, metaElems = fe :: rest
          ∧ fe.tag = Tag.FileMetaInformationGroupLength := by
  simp only [NewParser, List.foldl_nil] at hp
  rw [if_pos trivial] at hp
  cases hh : readHeader (Reader.new data .littleEndian n) with
  | error e => rw [hh] at hp; exact absurd hp (by simp)
  | ok q =>
    obtain ⟨elems, rh⟩ := q
    rw [hh] at hp
    simp only [Except.ok.injEq] at hp
    subst hp
    unfold parser.Parse at hok ⊢
    obtain ⟨tail, htail⟩ := parseLoop_ok_extends hok
    obtain ⟨fe, rest, hshape, hfetag⟩ := readHeader_shape hh
    exact ⟨elems, rh, tail, rfl, htail, fe, rest, hshape, hfetag⟩

theorem parse_dataset_meta_then_body_witness :
    (∃ metaElems r' tail,
      readHeader (Reader.new minimalFileBytes .littleEndian 184)
        = .ok (metaElems, r')
      ∧ (parser.Parse minimalParserSink).dataset.Elements = metaElems ++ tail
      ∧ ∃ fe rest, metaElems = fe :: rest
          ∧ fe.tag = Tag.FileMetaInformationGroupLength)
    ∧ (parser.Parse minimalParserSink).dataset.Elements.length = 3
    ∧ (parser.Parse minimalParserSink).err = none :=
  ⟨parse_dataset_meta_then_body minimalFileBytes 184 (some ⟨0⟩)
      minimalParserSink (by decide) (by decide),
   by decide, by decide⟩

/-- C9: when Parse fails on an unresolvable specific character set, it
returns the dataset as accumulated so far (the partial dataset extending
the meta elements, not the empty dataset) together with the error, and at
the failure point the loop returns the current dataset unchanged: the
SpecificCharacterSet element itself is not appended, and the sink is left
as it was. -/
theorem unresolvable_charset_returns_accumulated (p : parser) (fuel : Nat)
    (r : Reader) (ds : Dataset) (sink : Option FrameSink) (elem : Element)
    (r' : Reader) (ce : DicomError) :
    ((parser.Parse p).err = some .unresolvableCharset →
      ∃ tail, (parser.Parse p).dataset.Elements = p.dataset.Elements ++ tail)
    ∧ (¬ r.isLimitExhausted = true → readElement r = .ok (elem, r') →
        elem.tag = Tag.SpecificCharacterSet →
        ParseSpecificCharacterSet (MustGetStrings elem.value) = .error ce →
        parseLoop (fuel + 1) r ds sink = ⟨ds, some ce, sink⟩) := by
  constructor
  · intro h
    unfold parser.Parse at h ⊢
    exact parseLoop_charset_accum h
  · intro hex hre htag hcs
    simp only [parseLoop]
    rw [if_neg hex]
    simp only [hre]
    rw [if_pos htag]
    simp only [hcs]

theorem unresolvable_charset_returns_accumulated_witness :
    (∃ tail, (parser.Parse ⟨⟨csBadInput, 172, [190], .littleEndian, false,
        ⟨[]⟩⟩, ⟨[fmiglElem, tsuidElem]⟩, some ⟨0⟩⟩).dataset.Elements
      = [fmiglElem, tsuidElem] ++ tail)
    ∧ parseLoop 19 csBadLoopReader ⟨[fmiglElem, tsuidElem]⟩ (some ⟨0⟩)
        = ⟨⟨[fmiglElem, tsuidElem]⟩, some .unresolvableCharset, some ⟨0⟩⟩ :=
  ⟨(unresolvable_charset_returns_accumulated
      ⟨⟨csBadInput, 172, [190], .littleEndian, false, ⟨[]⟩⟩,
        ⟨[fmiglElem, tsuidElem]⟩, some ⟨0⟩⟩
      18 csBadLoopReader ⟨[fmiglElem, tsuidElem]⟩ (some ⟨0⟩) scsBadElem
      ⟨csBadInput, 190, [190], .littleEndian, false, ⟨[]⟩⟩
      .unresolvableCharset).1 (by decide),
   (unresolvable_charset_returns_accumulated
      ⟨⟨csBadInput, 172, [190], .littleEndian, false, ⟨[]⟩⟩,
        ⟨[fmiglElem, tsuidElem]⟩, some ⟨0⟩⟩
      18 csBadLoopReader ⟨[fmiglElem, tsuidElem]⟩ (some ⟨0⟩) scsBadElem
      ⟨csBadInput, 190, [190], .littleEndian, false, ⟨[]⟩⟩
      .unresolvableCharset).2 (by decide) (by decide) (by decide) (by decide)⟩

/-- C10: without the assume-no-header option, NewParser itself runs the
whole header read, so it propagates any header error before Parse is ever
called, and on success seeds the parser with the post-header reader and the
meta elements; with the option set, NewParser performs no reads: it returns
the fresh reader, still at position 0, and an empty dataset. -/
theorem newParser_consumes_header_unless_no_header_option (data : List Nat)
    (n : Nat) (sink : Option FrameSink) :
    (∀ e, readHeader (Reader.new data .littleEndian n) = .error e →
        NewParser data n sink [] = .error e)
    ∧ (∀ es r', readHeader (Reader.new data .littleEndian n) = .ok (es, r') →
        NewParser data n sink [] = .ok ⟨r', ⟨es⟩, sink⟩)
    ∧ NewParser data n sink [AssumeNoHeaderAndOffset]
        = .ok ⟨Reader.new data .littleEndian n, ⟨[]⟩, sink⟩
    ∧ (Reader.new data .littleEndian n).pos = 0 := by
  refine ⟨?_, ?_, rfl, rfl⟩
  · intro e he
    simp only [NewParser, List.foldl_nil]
    rw [if_pos trivial, he]
  · intro es r' hok
    simp only [NewParser, List.foldl_nil]
    rw [if_pos trivial, hok]

theorem newParser_consumes_header_unless_no_header_option_witness :
    NewParser minimalFileBytes 184 (some ⟨0⟩) []
      = .ok ⟨⟨minimalFileBytes, 172, [184], .littleEndian, false, ⟨[]⟩⟩,
          ⟨[fmiglElem, tsuidElem]⟩, some ⟨0⟩⟩
    ∧ NewParser badMagicInput 132 (some ⟨0⟩) [] = .error .magicWord
    ∧ NewParser minimalFileBytes 184 (some ⟨0⟩) [AssumeNoHeaderAndOffset]
      = .ok ⟨Reader.new minimalFileBytes .littleEndian 184, ⟨[]⟩, some ⟨0⟩⟩ :=
  ⟨(newParser_consumes_header_unless_no_header_option minimalFileBytes 184
      (some ⟨0⟩)).2.1 [fmiglElem, tsuidElem]
      ⟨minimalFileBytes, 172, [184], .littleEndian, false, ⟨[]⟩⟩ (by decide),
   (newParser_consumes_header_unless_no_header_option badMagicInput 132
      (some ⟨0⟩)).1 .magicWord (by decide),
   (newParser_consumes_header_unless_no_header_option minimalFileBytes 184
      (some ⟨0⟩)).2.2.1⟩
